import Mathlib

/-!
Shallow embedding of the aggregation and segmentation analytics engine of
src/src/helpers.py (driver coupon acceptance analysis), together with
theorems settling the frozen claims about it.

Conventions of the embedding:
- a table cell that may be missing is an `Option` value; `none` models a
  pandas NaN / null;
- pandas integer counts become `Nat`; Python / numpy real arithmetic on
  rates becomes exact `Rat` arithmetic (no claim depends on binary
  floating-point rounding);
- `round(x, 2)` (Python builtin and `Series.round(2)`, both round half to
  even) is embedded as `round2` below;
- numpy scalar division `0 / 0` produces NaN with a RuntimeWarning, not an
  exception; a rate that can be NaN is therefore an `Option Rat` with
  `none` for NaN;
- pandas Series.idxmax / idxmin (and max / min) on a non-empty all-NA
  series return NaN in pandas 1.3 through 2.x (ValueError is raised only
  on an empty series), so result fields that can be NaN are `Option`
  values with `none` for NaN.
-/

/-- Round half to even to the nearest integer, as Python round does on the
scaled value. -/
def roundHalfEven (q : ℚ) : ℤ :=
  let f := ⌊q⌋
  let r := q - f
  if r < 1/2 then f
  else if 1/2 < r then f + 1
  else if f % 2 = 0 then f else f + 1

/-- Embedding of round(x, 2): round to two decimal places, half to even. -/
def round2 (q : ℚ) : ℚ := (roundHalfEven (q * 100) : ℚ) / 100

/-- Number of non-null entries of a row, as counted by pandas dropna /
isnull aggregation. -/
def nonNullCount {V : Type} (r : List (Option V)) : Nat :=
  r.countP (fun c => c.isSome)

-- ===========================================================================
-- validate_dataframe (src/src/helpers.py 133-193)
-- ===========================================================================

/-- Number of null entries of a column, df[col].isnull().sum(). -/
def nullCount {V : Type} (cells : List (Option V)) : Nat :=
  cells.countP (fun c => c.isNone)

/-- The parts of the quality report the claims are about: is_valid, the
errors list and the warnings list.  A Python message mentioning a column
is embedded as the name of that column; the single missing-required-columns
message (which carries the set of missing names) is embedded as the fixed
string "Missing required columns". -/
structure QualityReport where
  is_valid : Bool
  errors : List String
  warnings : List String

/-- Per-column high-null flags of validate_dataframe, translated branch
for branch from the source:

  if null_pct > 50: warnings.append(...)
  elif null_pct > 90: errors.append(...)

The elif chains the two thresholds, so the error branch is tested only
when null_pct is not above 50.  The first component collects the warning
appended for this column, the second the error. -/
def colFlags {V : Type} (nrows : Nat) (c : String × List (Option V)) :
    List String × List String :=
  let nullPct : ℚ := ((nullCount c.2 : ℚ) / nrows) * 100
  if nullPct > 50 then ([c.1], [])
  else if nullPct > 90 then ([], [c.1])
  else ([], [])

/-- Embedding of validate_dataframe on a table with nrows rows (len(df))
and the given named columns: is_valid is cleared exactly when a required
column is absent, and the per-column null percentages feed the elif chain
of colFlags in column order. -/
def validate_dataframe {V : Type} (nrows : Nat)
    (cols : List (String × List (Option V))) (required : List String) :
    QualityReport :=
  let missing := required.filter (fun c => !(cols.map Prod.fst).contains c)
  { is_valid := missing.isEmpty
    errors := (if missing.isEmpty then [] else ["Missing required columns"])
      ++ (cols.map (fun c => (colFlags nrows c).2)).flatten
    warnings := (cols.map (fun c => (colFlags nrows c).1)).flatten }

-- ===========================================================================
-- handle_missing_values, drop_rows strategy (src/src/helpers.py 255-256)
-- ===========================================================================

/-- Embedding of the drop_rows branch of handle_missing_values:
df.dropna(thresh=int(len(df.columns) * (1 - threshold))) keeps exactly the
rows with at least thresh non-null entries.  Python int() truncates toward
zero; for threshold in [0, 1] the argument is nonnegative, so this is the
floor, and a pandas thresh of n keeps the rows r with n <= nonNullCount r.
A table is its list of rows, each row the list of its cells across the
ncols = len(df.columns) columns. -/
def handle_missing_values_drop_rows {V : Type} (rows : List (List (Option V)))
    (ncols : Nat) (threshold : ℚ) : List (List (Option V)) :=
  let thresh : Nat := (⌊(ncols : ℚ) * (1 - threshold)⌋).toNat
  rows.filter (fun r => decide (thresh ≤ nonNullCount r))

/-- Definition following the words of the claim for the drop_rows
strategy, for comparison with handle_missing_values_drop_rows (which is
translated from the source): drop exactly those rows whose fraction of
non-null entries across all columns falls below 1 - threshold. -/
def drop_rows_fraction_spec {V : Type} (rows : List (List (Option V)))
    (ncols : Nat) (threshold : ℚ) : List (List (Option V)) :=
  rows.filter (fun r =>
    decide (¬((nonNullCount r : ℚ) / ncols < 1 - threshold)))

-- ===========================================================================
-- create_frequency_segments (src/src/helpers.py 351-374)
-- ===========================================================================

/-- The inner map_value closure of create_frequency_segments: scan the
thresholds mapping in order and return the first segment label whose value
list contains the value of the cell; return "Unknown" when none does.  The
value lists are lists of non-null values (the claim restricts to
thresholds whose lists contain no null), so the Python membership test
`val in values` is false for a NaN cell, which therefore falls through to
"Unknown". -/
def mapValue {V : Type} [DecidableEq V] :
    List (String × List V) → Option V → String
  | [], _ => "Unknown"
  | (seg, vs) :: rest, val =>
      if (match val with
          | some v => decide (v ∈ vs)
          | none => false) then seg
      else mapValue rest val

/-- Embedding of create_frequency_segments: df[column].apply(map_value),
applied entrywise to the bucketized column (pandas apply does not skip
NaN entries). -/
def create_frequency_segments {V : Type} [DecidableEq V]
    (cells : List (Option V)) (thresholds : List (String × List V)) :
    List String :=
  cells.map (mapValue thresholds)

-- ===========================================================================
-- calculate_acceptance_rate, group_by omitted (src/src/helpers.py 286-294)
-- ===========================================================================

/-- The single result row of calculate_acceptance_rate when group_by is
None.  The rate field embeds round((accepted / total) * 100, 2); on the
empty table the numpy scalar division 0 / 0 yields NaN (with a
RuntimeWarning, not an exception), embedded as `none`. -/
structure OverallStats where
  Total : Nat
  Accepted : Nat
  Declined : Int
  rate : Option ℚ
  deriving DecidableEq, Repr

/-- Embedding of the group_by = None branch of calculate_acceptance_rate:
total = len(df), accepted = df[target_col].sum(), declined = total -
accepted, rate = round((accepted / total) * 100, 2).  The target column is
the list of its (non-null, per the data model) 0/1 values. -/
def calculate_acceptance_rate_overall (ys : List Nat) : OverallStats :=
  let total := ys.length
  let accepted := ys.sum
  { Total := total
    Accepted := accepted
    Declined := (total : Int) - accepted
    rate := if total = 0 then none
            else some (round2 (((accepted : ℚ) / total) * 100)) }

-- ===========================================================================
-- calculate_acceptance_rate, grouped branch (src/src/helpers.py 296-306)
-- ===========================================================================

/-- A table row as seen by the grouped branch of calculate_acceptance_rate:
the tuple of its group-by column values (each possibly null) and its
target value (non-null by the data model, the target column is binary). -/
structure GRow (K : Type) where
  keys : List (Option K)
  y : Nat

/-- Whether every group-key component of a row is non-null.  pandas
groupby (dropna=True, the default) silently drops every row whose group
key contains a NaN in any component. -/
def validKeys {K : Type} (r : GRow K) : Bool := r.keys.all Option.isSome

/-- Accumulated statistics of one group: its key tuple, the sum of the
target column over the group (agg sum) and the group size (agg count). -/
structure GStat (K : Type) where
  key : List (Option K)
  accepted : Nat
  count : Nat

/-- Add one row to the running per-group statistics. -/
def upsert {K : Type} [DecidableEq K] :
    List (GStat K) → List (Option K) → Nat → List (GStat K)
  | [], k, y => [⟨k, y, 1⟩]
  | g :: t, k, y =>
      if g.key = k then ⟨g.key, g.accepted + y, g.count + 1⟩ :: t
      else g :: upsert t k y

/-- Embedding of df.groupby(group_by)[target_col].agg(sum, count): one
entry per distinct key tuple among the rows.  pandas emits the groups
sorted by key; this fold emits them in first-encounter order, a
permutation that leaves every column sum unchanged (the claims about this
function only concern column sums). -/
def groupbyAgg {K : Type} [DecidableEq K] (rows : List (GRow K)) : List (GStat K) :=
  rows.foldl (fun acc r => upsert acc r.keys r.y) []

/-- One output row of the grouped branch of calculate_acceptance_rate. -/
structure AggRow (K : Type) where
  keys : List (Option K)
  Total : Nat
  Accepted : Nat
  Declined : Int
  rate : ℚ

/-- Embedding of the grouped branch of calculate_acceptance_rate: group by
the key tuple (pandas drops rows whose key contains a null), then per
group Total = count, Accepted = sum, Declined = Total - Accepted and
rate = (mean * 100).round(2). -/
def calculate_acceptance_rate_grouped {K : Type} [DecidableEq K]
    (rows : List (GRow K)) : List (AggRow K) :=
  (groupbyAgg (rows.filter validKeys)).map (fun g =>
    { keys := g.key
      Total := g.count
      Accepted := g.accepted
      Declined := (g.count : Int) - g.accepted
      rate := round2 (((g.accepted : ℚ) / g.count) * 100) })

-- ===========================================================================
-- compare_segments (src/src/helpers.py 309-348)
-- ===========================================================================

/-- One row of the two-row comparison table built by compare_segments. -/
structure CompRow where
  segment : String
  Total : Nat
  Accepted : Nat
  Declined : Int
  rate : ℚ
  rate_diff : ℚ
  deriving DecidableEq, Repr

/-- Statistics of one segment: (total, accepted, declined, rate), with the
rate guarded exactly as in the source: round((accepted / total) * 100, 2)
if total > 0 else 0. -/
def segmentStats (seg : List Nat) : Nat × Nat × Int × ℚ :=
  let total := seg.length
  let accepted := seg.sum
  (total, accepted, (total : Int) - accepted,
   if 0 < total then round2 (((accepted : ℚ) / total) * 100) else 0)

/-- Embedding of compare_segments: the target column is `ys`, the boolean
Series `condition` is `cond` (aligned by position); df[condition] keeps the
rows where cond is true, df[~condition] the exact complement.  The last
column stores the rate difference with opposite signs on the two rows. -/
def compare_segments (ys : List Nat) (cond : List Bool)
    (names : String × String) : List CompRow :=
  let target := (ys.zip cond).filterMap (fun p => if p.2 then some p.1 else none)
  let others := (ys.zip cond).filterMap (fun p => if p.2 then none else some p.1)
  let t := segmentStats target
  let o := segmentStats others
  let d := t.2.2.2 - o.2.2.2
  [ { segment := names.1, Total := t.1, Accepted := t.2.1,
      Declined := t.2.2.1, rate := t.2.2.2, rate_diff := d }
  , { segment := names.2, Total := o.1, Accepted := o.2.1,
      Declined := o.2.2.1, rate := o.2.2.2, rate_diff := -d } ]

-- ===========================================================================
-- convert_categorical_to_numeric (src/src/helpers.py 708-750)
-- ===========================================================================

/-- Occurrence count of a non-null value in a column, as tallied by
value_counts (which excludes NaN cells). -/
def countOf {V : Type} [DecidableEq V] (cells : List (Option V)) (v : V) : Nat :=
  cells.countP (fun c => decide (c = some v))

/-- The distinct non-null values of a column in order of first occurrence:
the base (hash-insertion) order in which value_counts tallies the
values. -/
def firstOcc {V : Type} [DecidableEq V] : List (Option V) → List V
  | [] => []
  | none :: t => firstOcc t
  | some v :: t => v :: (firstOcc t).filter (fun w => decide (w ≠ v))

/-- Position of the first occurrence of a value in a list (the length of
the list when absent); used to express the first-encounter tie-break. -/
def posOf {V : Type} [DecidableEq V] : List V → V → Nat
  | [], _ => 0
  | x :: t, v => if x = v then 0 else posOf t v + 1

/-- The ordering by which value_counts ranks the distinct values: by
occurrence count descending, ties in first-encounter order (value_counts
tallies in first-encounter order and returns the tallies stably sorted by
count descending, which is exactly a sort by this total preorder). -/
def rankLE {V : Type} [DecidableEq V] (cells : List (Option V)) (a b : V) : Prop :=
  countOf cells b < countOf cells a ∨
    (countOf cells a = countOf cells b ∧
      posOf (firstOcc cells) a ≤ posOf (firstOcc cells) b)

instance rankLEDecidable {V : Type} [DecidableEq V] (cells : List (Option V)) :
    DecidableRel (rankLE cells) := fun a b =>
  decidable_of_iff
    (countOf cells b < countOf cells a ∨
      (countOf cells a = countOf cells b ∧
        posOf (firstOcc cells) a ≤ posOf (firstOcc cells) b)) Iff.rfl

instance rankLETotal {V : Type} [DecidableEq V] (cells : List (Option V)) :
    IsTotal V (rankLE cells) := by
  constructor
  intro a b
  unfold rankLE
  omega

instance rankLETrans {V : Type} [DecidableEq V] (cells : List (Option V)) :
    IsTrans V (rankLE cells) := by
  constructor
  intro a b c hab hbc
  unfold rankLE at hab hbc ⊢
  omega

/-- Embedding of unique_values = value_counts().index.tolist(): the
distinct non-null values of the column, most frequent first, ties in
first-encounter order. -/
def unique_values {V : Type} [DecidableEq V] (cells : List (Option V)) : List V :=
  List.insertionSort (rankLE cells) (firstOcc cells)

/-- Codes n, n+1, ... attached to a list of values in order; the body of
enumerate in the dict comprehension building value_to_numeric. -/
def codesFrom {V : Type} : List V → Nat → List (V × Nat)
  | [], _ => []
  | v :: t, n => (v, n) :: codesFrom t (n + 1)

/-- Embedding of value_to_numeric, the per-column ValueMapping: the dict
mapping each value of unique_values to its index + 1, as an association
list in enumeration order. -/
def value_to_numeric {V : Type} [DecidableEq V] (cells : List (Option V)) :
    List (V × Nat) :=
  codesFrom (unique_values cells) 1

/-- Dictionary lookup value to code; Series.map sends keys absent from
the dict (in particular NaN) to NaN. -/
def alookup {V : Type} [DecidableEq V] : List (V × Nat) → V → Option Nat
  | [], _ => none
  | (w, n) :: t, v => if w = v then some n else alookup t v

/-- Reverse lookup code to value: the inverse of the ValueMapping. -/
def alookupInv {V : Type} [DecidableEq V] : List (V × Nat) → Nat → Option V
  | [], _ => none
  | (w, n) :: t, m => if n = m then some w else alookupInv t m

/-- The encoded column: col_data.map(value_to_numeric) followed by
pd.to_numeric(..., errors=coerce); both steps keep NaN cells at NaN. -/
def encodeColumn {V : Type} [DecidableEq V] (cells : List (Option V)) :
    List (Option Nat) :=
  cells.map (fun c => c.bind (alookup (value_to_numeric cells)))

/-- The encoded column with the inverse of the ValueMapping applied
entrywise. -/
def decodeColumn {V : Type} [DecidableEq V] (cells : List (Option V)) :
    List (Option V) :=
  (encodeColumn cells).map (fun c => c.bind (alookupInv (value_to_numeric cells)))

-- ===========================================================================
-- analyze_time_patterns (src/src/helpers.py 461-516)
-- ===========================================================================

/-- A table row as consumed by analyze_time_patterns: the coupon type
(for the optional filter), the time-of-day bucket and the target value.
A null time cell behaves throughout like a value outside the canonical
bucket list — groupby drops it and the reindex keeps canonical buckets
only — so the time is embedded as a plain string. -/
structure TRow where
  coupon : String
  time : String
  y : Nat
  deriving DecidableEq

/-- The fixed canonical time_order list of the source. -/
def timeOrder : List String := ["7AM", "10AM", "2PM", "6PM", "10PM"]

/-- The optional coupon_type filter at the top of analyze_time_patterns:
df = df[df[coupon] == coupon_type]. -/
def filterCoupon (rows : List TRow) : Option String → List TRow
  | none => rows
  | some c => rows.filter (fun r => decide (r.coupon = c))

/-- The rows of one time bucket, the fiber selected by groupby(time). -/
def timeGroup (rows : List TRow) (t : String) : List TRow :=
  rows.filter (fun r => decide (r.time = t))

/-- Accepted sum, Total count and Rate of one time bucket, as produced by
groupby(time)[target].agg(sum, count, mean) and
Rate = (mean * 100).round(2); none when the bucket does not occur in the
data — the NaN row that reindex(time_order) inserts for a missing
bucket. -/
def timeStat (rows : List TRow) (t : String) : Option (Nat × Nat × ℚ) :=
  let g := timeGroup rows t
  if g.length = 0 then none
  else some ((g.map (fun r => r.y)).sum, g.length,
    round2 ((((g.map (fun r => r.y)).sum : ℚ) / g.length) * 100))

/-- The by_time table: the groupby result reindexed onto the canonical
order — exactly one output row per canonical bucket, missing buckets as
none (NaN); buckets present in the data but outside the canonical list
are dropped by the reindex. -/
def by_time (rows : List TRow) : List (String × Option (Nat × Nat × ℚ)) :=
  timeOrder.map (fun t => (t, timeStat rows t))

/-- The Rate column of the reindexed by_time table. -/
def timeRates (rows : List TRow) : List (String × Option ℚ) :=
  timeOrder.map (fun t => (t, (timeStat rows t).map (fun p => p.2.2)))

/-- Series.idxmax: the index label of the first occurrence of the
maximum, skipping NaN entries, paired with that maximum; none when every
entry is NaN, the case in which Series.idxmax returns NaN (pandas 1.3
through 2.x raise ValueError only on an empty series; raising on a
non-empty all-NA series is merely a pandas-3 deprecation). -/
def idxmaxQ : List (String × Option ℚ) → Option (String × ℚ)
  | [] => none
  | (_, none) :: t => idxmaxQ t
  | (k, some r) :: t =>
      match idxmaxQ t with
      | none => some (k, r)
      | some (k2, r2) => if r < r2 then some (k2, r2) else some (k, r)

/-- Series.idxmin, mirror of idxmaxQ. -/
def idxminQ : List (String × Option ℚ) → Option (String × ℚ)
  | [] => none
  | (_, none) :: t => idxminQ t
  | (k, some r) :: t =>
      match idxminQ t with
      | none => some (k, r)
      | some (k2, r2) => if r2 < r then some (k2, r2) else some (k, r)

/-- The fields of the analyze_time_patterns result the claims are about:
total_records, the reindexed by_time table and the best/worst scalars.
The best/worst fields are Option values because Series.idxmax / idxmin
and Series.max / min return NaN on an all-NA Rate column (none models
NaN). -/
structure TimePatterns where
  total_records : Nat
  by_time : List (String × Option (Nat × Nat × ℚ))
  best_time : Option String
  worst_time : Option String
  best_rate : Option ℚ
  worst_rate : Option ℚ
  deriving DecidableEq

/-- Embedding of analyze_time_patterns: the coupon filter, the reindexed
by_time table and the best/worst extraction (the expiration table and the
interaction matrix are computed after these and no claim consults them).
The function always returns a result structure: on an all-NaN Rate
column — no canonical bucket in the filtered data — idxmax, idxmin, max
and min all return NaN (pandas 1.3 through 2.x), carried here as none
fields. -/
def analyze_time_patterns (rows : List TRow) (coupon_type : Option String) :
    TimePatterns :=
  let df := filterCoupon rows coupon_type
  { total_records := df.length
    by_time := by_time df
    best_time := (idxmaxQ (timeRates df)).map Prod.fst
    worst_time := (idxminQ (timeRates df)).map Prod.fst
    best_rate := (idxmaxQ (timeRates df)).map Prod.snd
    worst_rate := (idxminQ (timeRates df)).map Prod.snd }

-- ===========================================================================
-- Theorems for C10
-- ===========================================================================

theorem mapValue_none {V : Type} [DecidableEq V]
    (th : List (String × List V)) : mapValue th none = "Unknown" := by
  induction th with
  | nil => rfl
  | cons p rest ih =>
    cases p
    simpa [mapValue] using ih

/-- C10: create_frequency_segments assigns every row whose value in the
bucketized column is null the "Unknown" label (the Python membership test
against the null-free value lists is false for NaN, so NaN falls through
every bucket): in the output segment series nulls are not preserved as
nulls, unlike in the Categorical Encoder. -/
theorem create_frequency_segments_null_is_unknown {V : Type} [DecidableEq V]
    (cells : List (Option V)) (thresholds : List (String × List V)) (i : Nat)
    (h : cells[i]? = some none) :
    (create_frequency_segments cells thresholds)[i]? = some "Unknown" := by
  unfold create_frequency_segments
  rw [List.getElem?_map, h]
  simp [mapValue_none]

/-- C10, witness: a one-cell column holding a null, bucketized through a
null-free thresholds mapping, yields the label "Unknown" at that
position. -/
theorem create_frequency_segments_null_is_unknown_witness :
    ([none] : List (Option String))[0]? = some none ∧
    (create_frequency_segments ([none] : List (Option String))
        [("Low", ["never", "less1"]), ("High", ["1~3", "4~8", "gt8"])])[0]?
      = some "Unknown" :=
  ⟨rfl, create_frequency_segments_null_is_unknown _ _ 0 rfl⟩

-- ===========================================================================
-- Theorems for C2
-- ===========================================================================

/-- C2: evaluation of validate_dataframe at the failing input named by the
claim: a present required column "a" that is 95 percent null (19 nulls in
20 rows).  Because the source tests the two thresholds with an
if/elif chain, the greater-than-90 error branch is reachable only when
the percentage is not above 50, which is impossible, so the column lands
in warnings only: the errors list stays empty, contradicting the claim
that the column is listed in both.  is_valid stays true as the claim
says. -/
theorem validate_dataframe_ninety_five_pct_warning_only :
    validate_dataframe 20
        [("a", [none, none, none, none, none, none, none, none, none, none,
                none, none, none, none, none, none, none, none, none,
                some "x"])] ["a"]
      = { is_valid := true, errors := [], warnings := ["a"] } := by
  have h19 : nullCount
      ([none, none, none, none, none, none, none, none, none, none,
        none, none, none, none, none, none, none, none, none,
        some "x"] : List (Option String)) = 19 := by decide
  have hcol : colFlags 20
      ("a", ([none, none, none, none, none, none, none, none, none, none,
              none, none, none, none, none, none, none, none, none,
              some "x"] : List (Option String)))
      = (["a"], []) := by
    simp only [colFlags]
    rw [h19]
    norm_num
  simp [validate_dataframe, hcol]

-- ===========================================================================
-- Theorems for C8
-- ===========================================================================

/-- C8, counterexample: two columns, threshold 1/4.  The row holding one
non-null cell out of two has non-null fraction 1/2, below
1 - threshold = 3/4, so the claim says it is dropped; the source computes
thresh = int(2 * 3/4) = 1 and dropna keeps every row with at least one
non-null cell, so the row is kept. -/
theorem handle_missing_values_drop_rows_truncation_counterexample :
    handle_missing_values_drop_rows [[some "a", none]] 2 (1/4)
      = [[some "a", none]] ∧
    ((nonNullCount [some "a", (none : Option String)] : ℚ) / 2 < 1 - 1/4) := by
  have h1 : nonNullCount [some "a", (none : Option String)] = 1 := by decide
  constructor
  · simp [handle_missing_values_drop_rows, h1]
    norm_num
  · rw [h1]; norm_num

/-- C8, amended: handle_missing_values with strategy drop_rows keeps
exactly those rows whose count of non-null entries is at least
int(ncols * (1 - threshold)) — the integer truncation of the scaled
threshold — and whenever ncols * (1 - threshold) is a whole number m this
coincides with the claim: it drops exactly those rows whose fraction of
non-null entries falls below 1 - threshold. -/
theorem handle_missing_values_drop_rows_floor {V : Type}
    (rows : List (List (Option V))) (ncols : Nat) (t : ℚ) (m : Nat)
    (hpos : 0 < ncols) (hm : (ncols : ℚ) * (1 - t) = (m : ℚ)) :
    handle_missing_values_drop_rows rows ncols t
      = drop_rows_fraction_spec rows ncols t := by
  unfold handle_missing_values_drop_rows drop_rows_fraction_spec
  have hc : (0 : ℚ) < (ncols : ℚ) := by exact_mod_cast hpos
  have hfl : (⌊(ncols : ℚ) * (1 - t)⌋).toNat = m := by
    rw [hm, Int.floor_natCast]
    simp
  apply List.filter_congr
  intro r _
  rw [hfl]
  refine decide_eq_decide.mpr ?_
  rw [not_lt, le_div_iff₀ hc, mul_comm, hm]
  exact Iff.symm Nat.cast_le

/-- C8, witness: with two columns and threshold 1/2 the scaled threshold
2 * (1 - 1/2) = 1 is a whole number, and the source function agrees with
the fractional description on a table with one half-null row and one
fully-null row. -/
theorem handle_missing_values_drop_rows_floor_witness :
    ((2 : ℕ) : ℚ) * (1 - 1/2) = ((1 : ℕ) : ℚ) ∧
    handle_missing_values_drop_rows
        [[some "a", none], [none, (none : Option String)]] 2 (1/2)
      = drop_rows_fraction_spec
        [[some "a", none], [none, (none : Option String)]] 2 (1/2) :=
  ⟨by norm_num,
   handle_missing_values_drop_rows_floor _ 2 (1/2) 1 (by norm_num) (by norm_num)⟩

-- ===========================================================================
-- Lemmas and theorems for C1
-- ===========================================================================

theorem upsert_count_sum {K : Type} [DecidableEq K] (acc : List (GStat K))
    (k : List (Option K)) (y : Nat) :
    ((upsert acc k y).map (fun g => g.count)).sum
      = (acc.map (fun g => g.count)).sum + 1 := by
  induction acc with
  | nil => simp [upsert]
  | cons g t ih =>
    by_cases hk : g.key = k
    · simp only [upsert, hk, if_true, List.map_cons, List.sum_cons]
      omega
    · simp only [upsert, hk, if_false, List.map_cons, List.sum_cons, ih]
      omega

theorem upsert_accepted_sum {K : Type} [DecidableEq K] (acc : List (GStat K))
    (k : List (Option K)) (y : Nat) :
    ((upsert acc k y).map (fun g => g.accepted)).sum
      = (acc.map (fun g => g.accepted)).sum + y := by
  induction acc with
  | nil => simp [upsert]
  | cons g t ih =>
    by_cases hk : g.key = k
    · simp only [upsert, hk, if_true, List.map_cons, List.sum_cons]
      omega
    · simp only [upsert, hk, if_false, List.map_cons, List.sum_cons, ih]
      omega

theorem foldl_upsert_count_sum {K : Type} [DecidableEq K] :
    ∀ (rows : List (GRow K)) (acc : List (GStat K)),
    ((rows.foldl (fun a r => upsert a r.keys r.y) acc).map (fun g => g.count)).sum
      = (acc.map (fun g => g.count)).sum + rows.length := by
  intro rows
  induction rows with
  | nil => intro acc; simp
  | cons r t ih =>
    intro acc
    simp only [List.foldl_cons, List.length_cons]
    rw [ih, upsert_count_sum]
    omega

theorem foldl_upsert_accepted_sum {K : Type} [DecidableEq K] :
    ∀ (rows : List (GRow K)) (acc : List (GStat K)),
    ((rows.foldl (fun a r => upsert a r.keys r.y) acc).map (fun g => g.accepted)).sum
      = (acc.map (fun g => g.accepted)).sum + (rows.map (fun r => r.y)).sum := by
  intro rows
  induction rows with
  | nil => intro acc; simp
  | cons r t ih =>
    intro acc
    simp only [List.foldl_cons, List.map_cons, List.sum_cons]
    rw [ih, upsert_accepted_sum]
    omega

/-- C1, amended: for every table whose group-key columns contain no null
entry, the grouped result of calculate_acceptance_rate satisfies: the sum
of the Accepted column over all result rows equals the sum of the target
column, and the sum of the Total column equals the number of rows.  (The
hypothesis is forced by the counterexample below: pandas groupby drops
every row whose key contains a null, so those rows are missing from both
sums.) -/
theorem calculate_acceptance_rate_grouped_sums {K : Type} [DecidableEq K]
    (rows : List (GRow K)) (h : ∀ r ∈ rows, validKeys r = true) :
    ((calculate_acceptance_rate_grouped rows).map (fun a => a.Accepted)).sum
      = (rows.map (fun r => r.y)).sum ∧
    ((calculate_acceptance_rate_grouped rows).map (fun a => a.Total)).sum
      = rows.length := by
  have hf : rows.filter validKeys = rows := List.filter_eq_self.mpr h
  unfold calculate_acceptance_rate_grouped groupbyAgg
  rw [hf, List.map_map, List.map_map]
  constructor
  · simpa using foldl_upsert_accepted_sum rows []
  · simpa using foldl_upsert_count_sum rows []

/-- C1, witness: a two-row table with non-null group keys A and B, target
values 1 and 0; the grouped sums match the whole-table sums. -/
theorem calculate_acceptance_rate_grouped_sums_witness :
    (∀ r ∈ ([⟨[some "A"], 1⟩, ⟨[some "B"], 0⟩] : List (GRow String)),
        validKeys r = true) ∧
    (((calculate_acceptance_rate_grouped
          ([⟨[some "A"], 1⟩, ⟨[some "B"], 0⟩] : List (GRow String))).map
        (fun a => a.Accepted)).sum
      = (([⟨[some "A"], 1⟩, ⟨[some "B"], 0⟩] : List (GRow String)).map
          (fun r => r.y)).sum ∧
    ((calculate_acceptance_rate_grouped
          ([⟨[some "A"], 1⟩, ⟨[some "B"], 0⟩] : List (GRow String))).map
        (fun a => a.Total)).sum
      = ([⟨[some "A"], 1⟩, ⟨[some "B"], 0⟩] : List (GRow String)).length) :=
  ⟨by decide, calculate_acceptance_rate_grouped_sums _ (by decide)⟩

/-- C1, counterexample: a one-row table whose single group-key value is
null.  pandas groupby drops the row, the grouped result is empty, and both
result sums are 0 while the table has one row with target sum 1 — the
claim fails as stated. -/
theorem calculate_acceptance_rate_grouped_null_key_counterexample :
    calculate_acceptance_rate_grouped ([⟨[none], 1⟩] : List (GRow String)) = [] ∧
    (([⟨[none], 1⟩] : List (GRow String)).map (fun r => r.y)).sum = 1 ∧
    ([⟨[none], 1⟩] : List (GRow String)).length = 1 := ⟨rfl, rfl, rfl⟩

-- ===========================================================================
-- Theorems for C3
-- ===========================================================================

/-- C3, counterexample: on the zero-row table with group_by omitted,
calculate_acceptance_rate does not raise: numpy scalar division 0 / 0
evaluates to NaN (RuntimeWarning only), so the function returns the
one-row result Total = 0, Accepted = 0, Declined = 0 with a NaN acceptance
rate — exactly the result the claim says is replaced by a raised error. -/
theorem calc_rate_overall_empty_returns_nan :
    calculate_acceptance_rate_overall [] =
      { Total := 0, Accepted := 0, Declined := 0, rate := none } := rfl

/-- C3, amended: calculate_acceptance_rate with group_by omitted always
returns a one-row result, and its acceptance rate is NaN exactly when the
table has zero rows; no error is raised. -/
theorem calc_rate_overall_nan_iff_empty (ys : List Nat) :
    (calculate_acceptance_rate_overall ys).rate = none ↔ ys = [] := by
  unfold calculate_acceptance_rate_overall
  constructor
  · intro h
    by_cases hy : ys.length = 0
    · exact List.length_eq_zero.mp hy
    · simp only [hy, if_false] at h
      exact absurd h (Option.some_ne_none _)
  · intro h
    subst h
    simp

-- ===========================================================================
-- Theorems for C5
-- ===========================================================================

/-- C5: for every table and every boolean predicate over its rows,
compare_segments returns a well-formed two-row result without raising, and
any zero-row segment is reported with Total = 0, Accepted = 0 and rate 0
(the guarded branch, not NaN and not an error). -/
theorem compare_segments_degenerate (ys : List Nat) (cond : List Bool)
    (names : String × String) :
    (compare_segments ys cond names).length = 2 ∧
    ∀ r ∈ compare_segments ys cond names,
      r.Total = 0 → r.Accepted = 0 ∧ r.rate = 0 := by
  refine ⟨rfl, ?_⟩
  intro r hr h0
  unfold compare_segments at hr
  simp only [List.mem_cons, List.not_mem_nil, or_false] at hr
  rcases hr with hr | hr
  · subst hr
    simp only [segmentStats] at h0 ⊢
    have hnil : (ys.zip cond).filterMap
        (fun p => if p.2 then some p.1 else none) = [] :=
      List.length_eq_zero.mp h0
    simp [hnil]
  · subst hr
    simp only [segmentStats] at h0 ⊢
    have hnil : (ys.zip cond).filterMap
        (fun p => if p.2 then none else some p.1) = [] :=
      List.length_eq_zero.mp h0
    simp [hnil]

/-- C5, witness: on the one-row table with an all-false predicate the
target segment is empty and its row is reported with Total = 0,
Accepted = 0, rate 0, inside a two-row result. -/
theorem compare_segments_degenerate_witness :
    (compare_segments [1] [false] ("Target Group", "All Others")).length = 2 ∧
    ∃ r ∈ compare_segments [1] [false] ("Target Group", "All Others"),
      r.Total = 0 ∧ r.Accepted = 0 ∧ r.rate = 0 := by
  have h := compare_segments_degenerate [1] [false] ("Target Group", "All Others")
  have hlen : 0 < (compare_segments [1] [false] ("Target Group", "All Others")).length := by
    rw [h.1]; norm_num
  have hmem := List.get_mem (compare_segments [1] [false] ("Target Group", "All Others")) 0 hlen
  have ht : ((compare_segments [1] [false] ("Target Group", "All Others")).get ⟨0, hlen⟩).Total = 0 := rfl
  exact ⟨h.1, _, hmem, ht, (h.2 _ hmem ht).1, (h.2 _ hmem ht).2⟩

-- ===========================================================================
-- Lemmas and theorems for C6 and C7
-- ===========================================================================

theorem mem_firstOcc {V : Type} [DecidableEq V] (cells : List (Option V)) (v : V) :
    v ∈ firstOcc cells ↔ some v ∈ cells := by
  induction cells with
  | nil => simp [firstOcc]
  | cons c t ih =>
    cases c with
    | none => simp [firstOcc, ih]
    | some w =>
      by_cases hvw : v = w
      · subst hvw
        simp [firstOcc]
      · simp [firstOcc, List.mem_filter, hvw, ih]

theorem nodup_firstOcc {V : Type} [DecidableEq V] (cells : List (Option V)) :
    (firstOcc cells).Nodup := by
  induction cells with
  | nil => simp [firstOcc]
  | cons c t ih =>
    cases c with
    | none => simpa [firstOcc] using ih
    | some w =>
      refine List.nodup_cons.mpr ⟨?_, ih.filter _⟩
      intro hmem
      have := (List.mem_filter.mp hmem).2
      simp at this

theorem getElem_posOf {V : Type} [DecidableEq V] (l : List V) (v : V)
    (h : v ∈ l) : l[posOf l v]? = some v := by
  induction l with
  | nil => cases h
  | cons x t ih =>
    by_cases hxv : x = v
    · subst hxv
      simp [posOf]
    · have hvt : v ∈ t := by
        rcases List.mem_cons.mp h with h1 | h1
        · exact absurd h1.symm hxv
        · exact h1
      simp [posOf, hxv, ih hvt]

theorem posOf_inj {V : Type} [DecidableEq V] {l : List V} {a b : V}
    (ha : a ∈ l) (hb : b ∈ l) (h : posOf l a = posOf l b) : a = b := by
  have h1 := getElem_posOf l a ha
  have h2 := getElem_posOf l b hb
  rw [h, h2] at h1
  exact (Option.some_inj.mp h1).symm

theorem mem_unique_values {V : Type} [DecidableEq V] (cells : List (Option V))
    (v : V) : v ∈ unique_values cells ↔ some v ∈ cells := by
  unfold unique_values
  rw [(List.perm_insertionSort (rankLE cells) (firstOcc cells)).mem_iff]
  exact mem_firstOcc cells v

theorem nodup_unique_values {V : Type} [DecidableEq V] (cells : List (Option V)) :
    (unique_values cells).Nodup := by
  unfold unique_values
  exact ((List.perm_insertionSort (rankLE cells) (firstOcc cells)).nodup_iff).mpr
    (nodup_firstOcc cells)

theorem mem_unique_values_mem_firstOcc {V : Type} [DecidableEq V]
    (cells : List (Option V)) {v : V} (h : v ∈ unique_values cells) :
    v ∈ firstOcc cells := by
  rw [mem_firstOcc]
  exact (mem_unique_values cells v).mp h

theorem codesFrom_map_fst {V : Type} :
    ∀ (l : List V) (n : Nat), (codesFrom l n).map Prod.fst = l := by
  intro l
  induction l with
  | nil => intro n; rfl
  | cons x t ih => intro n; simp [codesFrom, ih (n + 1)]

theorem codesFrom_map_snd {V : Type} :
    ∀ (l : List V) (n : Nat),
      (codesFrom l n).map Prod.snd = List.range' n l.length := by
  intro l
  induction l with
  | nil => intro n; rfl
  | cons x t ih => intro n; simp [codesFrom, ih (n + 1), List.range'_succ]

theorem codesFrom_code_le {V : Type} :
    ∀ (l : List V) (k : Nat) (a : V) (m : Nat),
      (a, m) ∈ codesFrom l k → k ≤ m := by
  intro l
  induction l with
  | nil =>
    intro k a m h
    simp [codesFrom] at h
  | cons x t ih =>
    intro k a m h
    rcases List.mem_cons.mp h with h1 | h1
    · have : m = k := congrArg Prod.snd h1
      omega
    · have := ih (k + 1) a m h1
      omega

theorem alookup_codesFrom {V : Type} [DecidableEq V] :
    ∀ (l : List V) (n : Nat) (v : V), v ∈ l →
      alookup (codesFrom l n) v = some (n + posOf l v) := by
  intro l
  induction l with
  | nil => intro n v h; cases h
  | cons x t ih =>
    intro n v h
    by_cases hxv : x = v
    · subst hxv
      simp [codesFrom, alookup, posOf]
    · have hvt : v ∈ t := by
        rcases List.mem_cons.mp h with h1 | h1
        · exact absurd h1.symm hxv
        · exact h1
      simp only [codesFrom, alookup, if_neg hxv, posOf, ih (n + 1) v hvt]
      exact congrArg some (by omega)

theorem alookupInv_codesFrom {V : Type} [DecidableEq V] :
    ∀ (l : List V) (n m : Nat), alookupInv (codesFrom l n) (n + m) = l[m]? := by
  intro l
  induction l with
  | nil => intro n m; simp [codesFrom, alookupInv]
  | cons x t ih =>
    intro n m
    cases m with
    | zero => simp [codesFrom, alookupInv]
    | succ k =>
      have hne : ¬(n = n + (k + 1)) := by omega
      rw [show codesFrom (x :: t) n = (x, n) :: codesFrom t (n + 1) from rfl]
      rw [show alookupInv ((x, n) :: codesFrom t (n + 1)) (n + (k + 1))
            = if n = n + (k + 1) then some x
              else alookupInv (codesFrom t (n + 1)) (n + (k + 1)) from rfl]
      rw [if_neg hne, show n + (k + 1) = (n + 1) + k from by omega, ih (n + 1) k]
      simp

theorem decodeColumn_eq {V : Type} [DecidableEq V] (cells : List (Option V)) :
    decodeColumn cells = cells := by
  unfold decodeColumn encodeColumn
  rw [List.map_map]
  conv_rhs => rw [← List.map_id cells]
  refine List.map_congr_left ?_
  intro c hc
  cases c with
  | none => rfl
  | some v =>
    have hv : v ∈ unique_values cells := (mem_unique_values cells v).mpr hc
    show ((some v).bind (alookup (value_to_numeric cells))).bind
        (alookupInv (value_to_numeric cells)) = id (some v)
    rw [Option.some_bind]
    unfold value_to_numeric
    rw [alookup_codesFrom (unique_values cells) 1 v hv]
    rw [Option.some_bind]
    rw [alookupInv_codesFrom (unique_values cells) 1 (posOf (unique_values cells) v)]
    rw [getElem_posOf (unique_values cells) v hv]
    rfl

/-- C6: for every column, the ValueMapping of convert_categorical_to_numeric
is a bijection on the observed distinct non-null values — its keys are
exactly those values, without duplicates, and its codes enumerate 1..N —
applying the inverse of the mapping entrywise to the encoded column
recovers the original column exactly, and null entries stay null in the
encoded column (no null becomes a valid code). -/
theorem convert_categorical_roundtrip {V : Type} [DecidableEq V]
    (cells : List (Option V)) :
    decodeColumn cells = cells ∧
    (∀ v : V, v ∈ (value_to_numeric cells).map Prod.fst ↔ some v ∈ cells) ∧
    ((value_to_numeric cells).map Prod.fst).Nodup ∧
    ((value_to_numeric cells).map Prod.snd
      = List.range' 1 (unique_values cells).length) ∧
    (∀ i : Nat, cells[i]? = some none → (encodeColumn cells)[i]? = some none) := by
  have hfst : (value_to_numeric cells).map Prod.fst = unique_values cells := by
    unfold value_to_numeric
    exact codesFrom_map_fst (unique_values cells) 1
  refine ⟨decodeColumn_eq cells, ?_, ?_, ?_, ?_⟩
  · intro v
    rw [hfst]
    exact mem_unique_values cells v
  · rw [hfst]
    exact nodup_unique_values cells
  · unfold value_to_numeric
    exact codesFrom_map_snd (unique_values cells) 1
  · intro i hi
    unfold encodeColumn
    rw [List.getElem?_map, hi]
    rfl

/-- C6, witness: a four-cell column with values b, a, b and a null
round-trips through encode and decode, and its null cell stays null in
the encoded column. -/
theorem convert_categorical_roundtrip_witness :
    decodeColumn [some "b", some "a", some "b", (none : Option String)]
      = [some "b", some "a", some "b", none] ∧
    (encodeColumn [some "b", some "a", some "b", (none : Option String)])[3]?
      = some none :=
  ⟨(convert_categorical_roundtrip [some "b", some "a", some "b", none]).1,
   (convert_categorical_roundtrip [some "b", some "a", some "b", none]).2.2.2.2
     3 rfl⟩

/-- C7: the ValueMapping of convert_categorical_to_numeric lists the
distinct non-null values in strictly decreasing order of occurrence count
with ties in first-encounter order, its codes are exactly 1..N in that
order, and the value receiving code 1 has an occurrence count at least
that of every mapped value. -/
theorem convert_categorical_ranking {V : Type} [DecidableEq V]
    (cells : List (Option V)) :
    List.Pairwise (fun a b => countOf cells b < countOf cells a ∨
        (countOf cells a = countOf cells b ∧
          posOf (firstOcc cells) a < posOf (firstOcc cells) b))
      (unique_values cells) ∧
    ((value_to_numeric cells).map Prod.snd
      = List.range' 1 (unique_values cells).length) ∧
    (∀ v w n, (v, 1) ∈ value_to_numeric cells →
      (w, n) ∈ value_to_numeric cells →
      countOf cells w ≤ countOf cells v) := by
  have hsorted : List.Pairwise (rankLE cells) (unique_values cells) :=
    List.sorted_insertionSort (rankLE cells) (firstOcc cells)
  have hnd : List.Pairwise (fun a b => a ≠ b) (unique_values cells) :=
    nodup_unique_values cells
  refine ⟨?_, ?_, ?_⟩
  · refine (hsorted.and hnd).imp_of_mem ?_
    intro a b ha hb hab
    rcases hab with ⟨hr, hne⟩
    rcases hr with h1 | ⟨h1, h2⟩
    · exact Or.inl h1
    · refine Or.inr ⟨h1, lt_of_le_of_ne h2 ?_⟩
      intro hpos
      exact hne (posOf_inj (mem_unique_values_mem_firstOcc cells ha)
        (mem_unique_values_mem_firstOcc cells hb) hpos)
  · unfold value_to_numeric
    exact codesFrom_map_snd (unique_values cells) 1
  · intro v w n hv hw
    unfold value_to_numeric at hv hw
    have hwmem : w ∈ unique_values cells := by
      have hmap := List.mem_map_of_mem Prod.fst hw
      rwa [codesFrom_map_fst] at hmap
    cases huv : unique_values cells with
    | nil =>
      rw [huv] at hwmem
      cases hwmem
    | cons x t =>
      rw [huv] at hv hw hwmem hsorted
      rcases List.mem_cons.mp hv with h1 | h1
      · have hvx : v = x := congrArg Prod.fst h1
        subst hvx
        rcases List.mem_cons.mp hwmem with h2 | h2
        · subst h2
          exact le_refl _
        · have hrel := List.rel_of_pairwise_cons hsorted h2
          rcases hrel with h3 | ⟨h3, _⟩
          · exact le_of_lt h3
          · exact le_of_eq h3.symm
      · have := codesFrom_code_le t 2 v 1 h1
        omega

/-- C7, witness: in the column b, a, b, null the value b occurs twice and
a once; b receives code 1, a receives code 2, and the count of a does not
exceed the count of b. -/
theorem convert_categorical_ranking_witness :
    ("b", 1) ∈ value_to_numeric [some "b", some "a", some "b", (none : Option String)] ∧
    ("a", 2) ∈ value_to_numeric [some "b", some "a", some "b", (none : Option String)] ∧
    countOf [some "b", some "a", some "b", (none : Option String)] "a"
      ≤ countOf [some "b", some "a", some "b", (none : Option String)] "b" :=
  ⟨by decide, by decide,
   (convert_categorical_ranking [some "b", some "a", some "b", none]).2.2
     "b" "a" 2 (by decide) (by decide)⟩


-- ===========================================================================
-- Lemmas and theorems for C4 and C9
-- ===========================================================================

theorem idxmaxQ_none_iff :
    ∀ l : List (String × Option ℚ),
      idxmaxQ l = none ↔ ∀ p ∈ l, p.2 = none := by
  intro l
  induction l with
  | nil => simp [idxmaxQ]
  | cons p t ih =>
    obtain ⟨k, v⟩ := p
    cases v with
    | none => simp [idxmaxQ, ih]
    | some r =>
      simp only [idxmaxQ]
      constructor
      · intro h
        exfalso
        cases hmt : idxmaxQ t with
        | none => rw [hmt] at h; simp at h
        | some p2 =>
          obtain ⟨k2, r2⟩ := p2
          rw [hmt] at h
          by_cases hc : r < r2 <;> simp [hc] at h
      · intro h
        have := h (k, some r) (List.mem_cons_self _ _)
        simp at this

theorem idxminQ_none_iff :
    ∀ l : List (String × Option ℚ),
      idxminQ l = none ↔ ∀ p ∈ l, p.2 = none := by
  intro l
  induction l with
  | nil => simp [idxminQ]
  | cons p t ih =>
    obtain ⟨k, v⟩ := p
    cases v with
    | none => simp [idxminQ, ih]
    | some r =>
      simp only [idxminQ]
      constructor
      · intro h
        exfalso
        cases hmt : idxminQ t with
        | none => rw [hmt] at h; simp at h
        | some p2 =>
          obtain ⟨k2, r2⟩ := p2
          rw [hmt] at h
          by_cases hc : r2 < r <;> simp [hc] at h
      · intro h
        have := h (k, some r) (List.mem_cons_self _ _)
        simp at this

theorem idxmaxQ_first :
    ∀ (l : List (String × Option ℚ)) (k : String) (r : ℚ),
      idxmaxQ l = some (k, r) →
      ∃ l1 l2, l = l1 ++ (k, some r) :: l2 ∧
        (∀ p ∈ l1, ∀ q : ℚ, p.2 = some q → q < r) ∧
        (∀ p ∈ l2, ∀ q : ℚ, p.2 = some q → q ≤ r) := by
  intro l
  induction l with
  | nil => intro k r h; cases h
  | cons p0 t ih =>
    intro k r h
    obtain ⟨k0, v0⟩ := p0
    cases v0 with
    | none =>
      rw [show idxmaxQ ((k0, none) :: t) = idxmaxQ t from rfl] at h
      obtain ⟨l1, l2, heq, h1, h2⟩ := ih k r h
      refine ⟨(k0, none) :: l1, l2, by rw [heq]; rfl, ?_, h2⟩
      intro p hp q hq
      rcases List.mem_cons.mp hp with hph | hph
      · subst hph; exact absurd hq (by simp)
      · exact h1 p hph q hq
    | some r0 =>
      rw [show idxmaxQ ((k0, some r0) :: t)
            = (match idxmaxQ t with
               | none => some (k0, r0)
               | some (k2, r2) =>
                 if r0 < r2 then some (k2, r2) else some (k0, r0)) from rfl] at h
      cases hmt : idxmaxQ t with
      | none =>
        rw [hmt] at h
        simp only [Option.some_inj] at h
        have hk : k0 = k := congrArg Prod.fst h
        have hr : r0 = r := congrArg Prod.snd h
        subst hk
        subst hr
        refine ⟨[], t, rfl, by simp, ?_⟩
        intro p hp q hq
        have := (idxmaxQ_none_iff t).mp hmt p hp
        rw [this] at hq
        exact absurd hq (by simp)
      | some p2 =>
        obtain ⟨k2, r2⟩ := p2
        rw [hmt] at h
        by_cases hc : r0 < r2
        · rw [show (match some (k2, r2) with
                 | none => some (k0, r0)
                 | some (k2, r2) =>
                   if r0 < r2 then some (k2, r2) else some (k0, r0))
               = if r0 < r2 then some (k2, r2) else some (k0, r0) from rfl,
             if_pos hc] at h
          simp only [Option.some_inj] at h
          have hk : k2 = k := congrArg Prod.fst h
          have hr : r2 = r := congrArg Prod.snd h
          subst hk
          subst hr
          obtain ⟨l1, l2, heq, h1, h2⟩ := ih k2 r2 hmt
          refine ⟨(k0, some r0) :: l1, l2, by rw [heq]; rfl, ?_, h2⟩
          intro p hp q hq
          rcases List.mem_cons.mp hp with hph | hph
          · subst hph
            simp only [Option.some_inj] at hq
            subst hq
            exact hc
          · exact h1 p hph q hq
        · rw [show (match some (k2, r2) with
                 | none => some (k0, r0)
                 | some (k2, r2) =>
                   if r0 < r2 then some (k2, r2) else some (k0, r0))
               = if r0 < r2 then some (k2, r2) else some (k0, r0) from rfl,
             if_neg hc] at h
          simp only [Option.some_inj] at h
          have hk : k0 = k := congrArg Prod.fst h
          have hr : r0 = r := congrArg Prod.snd h
          subst hk
          subst hr
          obtain ⟨l1, l2, heq, h1, h2⟩ := ih k2 r2 hmt
          have hr2 : r2 ≤ r0 := le_of_not_lt hc
          refine ⟨[], t, rfl, by simp, ?_⟩
          intro p hp q hq
          rw [heq] at hp
          rcases List.mem_append.mp hp with hp1 | hp1
          · exact le_trans (le_of_lt (h1 p hp1 q hq)) hr2
          · rcases List.mem_cons.mp hp1 with hp2 | hp2
            · subst hp2
              simp only [Option.some_inj] at hq
              subst hq
              exact hr2
            · exact le_trans (h2 p hp2 q hq) hr2

theorem idxminQ_first :
    ∀ (l : List (String × Option ℚ)) (k : String) (r : ℚ),
      idxminQ l = some (k, r) →
      ∃ l1 l2, l = l1 ++ (k, some r) :: l2 ∧
        (∀ p ∈ l1, ∀ q : ℚ, p.2 = some q → r < q) ∧
        (∀ p ∈ l2, ∀ q : ℚ, p.2 = some q → r ≤ q) := by
  intro l
  induction l with
  | nil => intro k r h; cases h
  | cons p0 t ih =>
    intro k r h
    obtain ⟨k0, v0⟩ := p0
    cases v0 with
    | none =>
      rw [show idxminQ ((k0, none) :: t) = idxminQ t from rfl] at h
      obtain ⟨l1, l2, heq, h1, h2⟩ := ih k r h
      refine ⟨(k0, none) :: l1, l2, by rw [heq]; rfl, ?_, h2⟩
      intro p hp q hq
      rcases List.mem_cons.mp hp with hph | hph
      · subst hph; exact absurd hq (by simp)
      · exact h1 p hph q hq
    | some r0 =>
      rw [show idxminQ ((k0, some r0) :: t)
            = (match idxminQ t with
               | none => some (k0, r0)
               | some (k2, r2) =>
                 if r2 < r0 then some (k2, r2) else some (k0, r0)) from rfl] at h
      cases hmt : idxminQ t with
      | none =>
        rw [hmt] at h
        simp only [Option.some_inj] at h
        have hk : k0 = k := congrArg Prod.fst h
        have hr : r0 = r := congrArg Prod.snd h
        subst hk
        subst hr
        refine ⟨[], t, rfl, by simp, ?_⟩
        intro p hp q hq
        have := (idxminQ_none_iff t).mp hmt p hp
        rw [this] at hq
        exact absurd hq (by simp)
      | some p2 =>
        obtain ⟨k2, r2⟩ := p2
        rw [hmt] at h
        by_cases hc : r2 < r0
        · rw [show (match some (k2, r2) with
                 | none => some (k0, r0)
                 | some (k2, r2) =>
                   if r2 < r0 then some (k2, r2) else some (k0, r0))
               = if r2 < r0 then some (k2, r2) else some (k0, r0) from rfl,
             if_pos hc] at h
          simp only [Option.some_inj] at h
          have hk : k2 = k := congrArg Prod.fst h
          have hr : r2 = r := congrArg Prod.snd h
          subst hk
          subst hr
          obtain ⟨l1, l2, heq, h1, h2⟩ := ih k2 r2 hmt
          refine ⟨(k0, some r0) :: l1, l2, by rw [heq]; rfl, ?_, h2⟩
          intro p hp q hq
          rcases List.mem_cons.mp hp with hph | hph
          · subst hph
            simp only [Option.some_inj] at hq
            subst hq
            exact hc
          · exact h1 p hph q hq
        · rw [show (match some (k2, r2) with
                 | none => some (k0, r0)
                 | some (k2, r2) =>
                   if r2 < r0 then some (k2, r2) else some (k0, r0))
               = if r2 < r0 then some (k2, r2) else some (k0, r0) from rfl,
             if_neg hc] at h
          simp only [Option.some_inj] at h
          have hk : k0 = k := congrArg Prod.fst h
          have hr : r0 = r := congrArg Prod.snd h
          subst hk
          subst hr
          obtain ⟨l1, l2, heq, h1, h2⟩ := ih k2 r2 hmt
          have hr2 : r0 ≤ r2 := le_of_not_lt hc
          refine ⟨[], t, rfl, by simp, ?_⟩
          intro p hp q hq
          rw [heq] at hp
          rcases List.mem_append.mp hp with hp1 | hp1
          · exact le_trans hr2 (le_of_lt (h1 p hp1 q hq))
          · rcases List.mem_cons.mp hp1 with hp2 | hp2
            · subst hp2
              simp only [Option.some_inj] at hq
              subst hq
              exact hr2
            · exact le_trans hr2 (h2 p hp2 q hq)

/-- C9, counterexample: on a one-row table whose only time value 3PM is
not a canonical bucket, analyze_time_patterns does not raise — the Rate
column after reindex(time_order) is a non-empty all-NA series, on which
Series.idxmax, idxmin, max and min all return NaN in pandas 1.3 through
2.x (ValueError belongs only to the empty-series case) — so the function
returns a full result structure whose best/worst fields are NaN,
refuting the claim that best/worst extraction aborts the call. -/
theorem analyze_time_patterns_no_bucket_counterexample :
    analyze_time_patterns [⟨"Bar", "3PM", 1⟩] none
      = { total_records := 1
          by_time := [("7AM", none), ("10AM", none), ("2PM", none),
                      ("6PM", none), ("10PM", none)]
          best_time := none
          worst_time := none
          best_rate := none
          worst_rate := none } := rfl

/-- C9, amended: if the filtered table has no row whose time value is one
of the five canonical buckets — in particular when the filtered table is
empty — the Rate column after reindex(time_order) is entirely NaN, and
analyze_time_patterns returns a result structure whose best_time,
worst_time, best_rate and worst_rate fields are all NaN (no error is
raised during best/worst extraction). -/
theorem analyze_time_patterns_no_bucket_nan (rows : List TRow)
    (c : Option String)
    (h : ∀ r ∈ filterCoupon rows c, r.time ∉ timeOrder) :
    (analyze_time_patterns rows c).best_time = none ∧
    (analyze_time_patterns rows c).worst_time = none ∧
    (analyze_time_patterns rows c).best_rate = none ∧
    (analyze_time_patterns rows c).worst_rate = none := by
  have hall : ∀ p ∈ timeRates (filterCoupon rows c), p.2 = none := by
    intro p hp
    rcases List.mem_map.mp hp with ⟨t, ht, rfl⟩
    have hg : timeGroup (filterCoupon rows c) t = [] := by
      unfold timeGroup
      rw [List.filter_eq_nil_iff]
      intro r hr
      simp only [decide_eq_true_eq]
      intro ht2
      exact h r hr (ht2 ▸ ht)
    simp [timeStat, hg]
  have hmax : idxmaxQ (timeRates (filterCoupon rows c)) = none :=
    (idxmaxQ_none_iff _).mpr hall
  have hmin : idxminQ (timeRates (filterCoupon rows c)) = none :=
    (idxminQ_none_iff _).mpr hall
  simp only [analyze_time_patterns]
  rw [hmax, hmin]
  exact ⟨rfl, rfl, rfl, rfl⟩

/-- C9, witness: a one-row table whose only time value 3PM is not a
canonical bucket; the returned best/worst fields are all NaN. -/
theorem analyze_time_patterns_no_bucket_nan_witness :
    (∀ r ∈ filterCoupon [⟨"Bar", "3PM", 1⟩] none, r.time ∉ timeOrder) ∧
    ((analyze_time_patterns [⟨"Bar", "3PM", 1⟩] none).best_time = none ∧
     (analyze_time_patterns [⟨"Bar", "3PM", 1⟩] none).worst_time = none ∧
     (analyze_time_patterns [⟨"Bar", "3PM", 1⟩] none).best_rate = none ∧
     (analyze_time_patterns [⟨"Bar", "3PM", 1⟩] none).worst_rate = none) :=
  ⟨by decide, analyze_time_patterns_no_bucket_nan _ none (by decide)⟩

theorem timeRates_some_mem (df : List TRow) (k : String) (q : ℚ)
    (h : (k, some q) ∈ timeRates df) :
    k ∈ timeOrder ∧ ∃ r ∈ df, r.time = k := by
  rcases List.mem_map.mp h with ⟨t, ht, heq⟩
  have hk : t = k := congrArg Prod.fst heq
  subst hk
  refine ⟨ht, ?_⟩
  have hsnd : (timeStat df t).map (fun p => p.2.2) = some q :=
    congrArg Prod.snd heq
  by_cases hlen : (timeGroup df t).length = 0
  · rw [show timeStat df t = none from by unfold timeStat; rw [if_pos hlen]]
      at hsnd
    exact absurd hsnd (by simp)
  · have hne : timeGroup df t ≠ [] := fun hnil => hlen (by rw [hnil]; rfl)
    obtain ⟨r, hrmem⟩ := List.exists_mem_of_ne_nil _ hne
    have hrf : r ∈ df.filter (fun s => decide (s.time = t)) := hrmem
    have hsplit := List.mem_filter.mp hrf
    exact ⟨r, hsplit.1, of_decide_eq_true hsplit.2⟩

/-- C4, amended: for every table that (after the optional coupon_type
filter) contains at least one row whose time value is a canonical bucket,
analyze_time_patterns returns a result with best_rate >= worst_rate whose
best_time and worst_time are canonical buckets occurring in the filtered
data, and each is the first entry of the canonical-order Rate column
attaining its extremum: every canonical bucket listed before it whose rate
is present in the data is strictly worse.  The claim is amended in two
points its counterexamples force: ties are broken by the canonical bucket
order [7AM, 10AM, 2PM, 6PM, 10PM] over which idxmax runs after the
reindex, not by the row order of the data, and the hypothesis must provide a
canonical bucket, not just a nonempty table (without one the best/worst
fields are NaN, see C9). -/
theorem analyze_time_patterns_best_worst (rows : List TRow) (c : Option String)
    (h : ∃ r ∈ filterCoupon rows c, r.time ∈ timeOrder) :
    ∃ bt wt br wr,
      (analyze_time_patterns rows c).best_time = some bt ∧
      (analyze_time_patterns rows c).worst_time = some wt ∧
      (analyze_time_patterns rows c).best_rate = some br ∧
      (analyze_time_patterns rows c).worst_rate = some wr ∧
      wr ≤ br ∧
      bt ∈ timeOrder ∧ wt ∈ timeOrder ∧
      (∃ r ∈ filterCoupon rows c, r.time = bt) ∧
      (∃ r ∈ filterCoupon rows c, r.time = wt) ∧
      (∃ l1 l2, timeRates (filterCoupon rows c)
          = l1 ++ (bt, some br) :: l2 ∧
        ∀ p ∈ l1, ∀ q : ℚ, p.2 = some q → q < br) ∧
      (∃ l1 l2, timeRates (filterCoupon rows c)
          = l1 ++ (wt, some wr) :: l2 ∧
        ∀ p ∈ l1, ∀ q : ℚ, p.2 = some q → wr < q) := by
  obtain ⟨r0, hr0, ht0⟩ := h
  have hg0 : timeGroup (filterCoupon rows c) r0.time ≠ [] := by
    intro hnil
    have hmem0 : r0 ∈ timeGroup (filterCoupon rows c) r0.time := by
      unfold timeGroup
      rw [List.mem_filter]
      exact ⟨hr0, by simp⟩
    rw [hnil] at hmem0
    cases hmem0
  have hstat : timeStat (filterCoupon rows c) r0.time ≠ none := by
    unfold timeStat
    by_cases hlen : (timeGroup (filterCoupon rows c) r0.time).length = 0
    · exact absurd (List.length_eq_zero.mp hlen) hg0
    · rw [if_neg hlen]
      exact Option.some_ne_none _
  have hentry : (r0.time,
      (timeStat (filterCoupon rows c) r0.time).map (fun p => p.2.2))
      ∈ timeRates (filterCoupon rows c) :=
    List.mem_map_of_mem _ ht0
  have hsome : (timeStat (filterCoupon rows c) r0.time).map (fun p => p.2.2)
      ≠ none := by
    intro hn
    exact hstat (Option.map_eq_none'.mp hn)
  have hmaxne : idxmaxQ (timeRates (filterCoupon rows c)) ≠ none := by
    intro hn
    exact hsome ((idxmaxQ_none_iff _).mp hn _ hentry)
  have hminne : idxminQ (timeRates (filterCoupon rows c)) ≠ none := by
    intro hn
    exact hsome ((idxminQ_none_iff _).mp hn _ hentry)
  obtain ⟨bp, hmax⟩ := Option.ne_none_iff_exists'.mp hmaxne
  obtain ⟨bt, br⟩ := bp
  obtain ⟨wp, hmin⟩ := Option.ne_none_iff_exists'.mp hminne
  obtain ⟨wt, wr⟩ := wp
  obtain ⟨m1, m2, hmeq, hm1, hm2⟩ := idxmaxQ_first _ bt br hmax
  obtain ⟨n1, n2, hneq, hn1, hn2⟩ := idxminQ_first _ wt wr hmin
  have hbmem : (bt, some br) ∈ timeRates (filterCoupon rows c) := by
    rw [hmeq]
    exact List.mem_append_right _ (List.mem_cons_self _ _)
  have hwmem : (wt, some wr) ∈ timeRates (filterCoupon rows c) := by
    rw [hneq]
    exact List.mem_append_right _ (List.mem_cons_self _ _)
  have hboundmax : ∀ p ∈ timeRates (filterCoupon rows c),
      ∀ q : ℚ, p.2 = some q → q ≤ br := by
    intro p hp q hq
    rw [hmeq] at hp
    rcases List.mem_append.mp hp with h1 | h1
    · exact le_of_lt (hm1 p h1 q hq)
    · rcases List.mem_cons.mp h1 with h2 | h2
      · subst h2
        simp only [Option.some_inj] at hq
        subst hq
        exact le_refl _
      · exact hm2 p h2 q hq
  have hbinfo := timeRates_some_mem _ bt br hbmem
  have hwinfo := timeRates_some_mem _ wt wr hwmem
  refine ⟨bt, wt, br, wr, ?_, ?_, ?_, ?_,
          hboundmax (wt, some wr) hwmem wr rfl,
          hbinfo.1, hwinfo.1, hbinfo.2, hwinfo.2,
          ⟨m1, m2, hmeq, hm1⟩, ⟨n1, n2, hneq, hn1⟩⟩
  · simp only [analyze_time_patterns]
    rw [hmax]
    rfl
  · simp only [analyze_time_patterns]
    rw [hmin]
    rfl
  · simp only [analyze_time_patterns]
    rw [hmax]
    rfl
  · simp only [analyze_time_patterns]
    rw [hmin]
    rfl

/-- C4, witness: a two-row table with canonical buckets 7AM (accepted)
and 10AM (declined); the amended theorem applies and yields a well-formed
best/worst result. -/
theorem analyze_time_patterns_best_worst_witness :
    (∃ r ∈ filterCoupon [⟨"x", "7AM", 1⟩, ⟨"x", "10AM", 0⟩] none,
        r.time ∈ timeOrder) ∧
    (∃ bt wt br wr,
      (analyze_time_patterns [⟨"x", "7AM", 1⟩, ⟨"x", "10AM", 0⟩]
          none).best_time = some bt ∧
      (analyze_time_patterns [⟨"x", "7AM", 1⟩, ⟨"x", "10AM", 0⟩]
          none).worst_time = some wt ∧
      (analyze_time_patterns [⟨"x", "7AM", 1⟩, ⟨"x", "10AM", 0⟩]
          none).best_rate = some br ∧
      (analyze_time_patterns [⟨"x", "7AM", 1⟩, ⟨"x", "10AM", 0⟩]
          none).worst_rate = some wr ∧
      wr ≤ br ∧
      bt ∈ timeOrder ∧ wt ∈ timeOrder ∧
      (∃ r ∈ filterCoupon [⟨"x", "7AM", 1⟩, ⟨"x", "10AM", 0⟩] none,
          r.time = bt) ∧
      (∃ r ∈ filterCoupon [⟨"x", "7AM", 1⟩, ⟨"x", "10AM", 0⟩] none,
          r.time = wt) ∧
      (∃ l1 l2,
        timeRates (filterCoupon [⟨"x", "7AM", 1⟩, ⟨"x", "10AM", 0⟩] none)
          = l1 ++ (bt, some br) :: l2 ∧
        ∀ p ∈ l1, ∀ q : ℚ, p.2 = some q → q < br) ∧
      (∃ l1 l2,
        timeRates (filterCoupon [⟨"x", "7AM", 1⟩, ⟨"x", "10AM", 0⟩] none)
          = l1 ++ (wt, some wr) :: l2 ∧
        ∀ p ∈ l1, ∀ q : ℚ, p.2 = some q → wr < q)) :=
  ⟨by decide, analyze_time_patterns_best_worst _ none (by decide)⟩

/-- C4, counterexample: in the table whose rows are (10PM, accepted) then
(7AM, accepted) the two present buckets tie at rate 100, and 10PM occurs
first in the row order of the data; yet best_time is 7AM, the tie winner in
the canonical bucket order the Rate column is reindexed onto — refuting
the claim that ties are broken by the row order of the data (which would give
best_time = 10PM). -/
theorem analyze_time_patterns_tie_counterexample :
    timeRates (filterCoupon [⟨"x", "10PM", 1⟩, ⟨"x", "7AM", 1⟩] none)
      = [("7AM", some 100), ("10AM", none), ("2PM", none), ("6PM", none),
         ("10PM", some 100)] ∧
    (analyze_time_patterns [⟨"x", "10PM", 1⟩, ⟨"x", "7AM", 1⟩] none).best_time
      = some "7AM" ∧
    (analyze_time_patterns [⟨"x", "10PM", 1⟩, ⟨"x", "7AM", 1⟩] none).worst_time
      = some "7AM" ∧
    (analyze_time_patterns [⟨"x", "10PM", 1⟩, ⟨"x", "7AM", 1⟩] none).best_rate
      = some 100 ∧
    (analyze_time_patterns [⟨"x", "10PM", 1⟩, ⟨"x", "7AM", 1⟩] none).worst_rate
      = some 100 := by
  have hrate : round2 (100 : ℚ) = 100 := by
    norm_num [round2, roundHalfEven]
  have hTR : timeRates (filterCoupon [⟨"x", "10PM", 1⟩, ⟨"x", "7AM", 1⟩] none)
      = [("7AM", some 100), ("10AM", none), ("2PM", none), ("6PM", none),
         ("10PM", some 100)] := by
    simp [timeRates, timeOrder, timeStat, timeGroup, filterCoupon, hrate]
  have hmax : idxmaxQ [("7AM", some 100), ("10AM", none), ("2PM", none),
      ("6PM", none), ("10PM", some (100 : ℚ))] = some ("7AM", 100) := by
    norm_num [idxmaxQ]
  have hmin : idxminQ [("7AM", some 100), ("10AM", none), ("2PM", none),
      ("6PM", none), ("10PM", some (100 : ℚ))] = some ("7AM", 100) := by
    norm_num [idxminQ]
  refine ⟨hTR, ?_, ?_, ?_, ?_⟩
  · simp only [analyze_time_patterns]
    rw [hTR, hmax]
    rfl
  · simp only [analyze_time_patterns]
    rw [hTR, hmin]
    rfl
  · simp only [analyze_time_patterns]
    rw [hTR, hmax]
    rfl
  · simp only [analyze_time_patterns]
    rw [hTR, hmin]
    rfl
